import Mathlib

/-!
Verification development for the CSV import pipeline of
`src/app.py` (Flask + SQLite CSV import demo).

Python strings are modelled as `List Char` (the modelled character set is
the Basic Multilingual Plane as Lean `Char`s; the ASCII whitespace set is
used for `str.strip` and the regex class `\s`, which agree on it).  The
CSV layer boundary is the Python `csv.reader`: an input stream is modelled
as the list of CSV records it yields, each record a list of field strings,
a blank physical line yielding the empty record `[]`.  `csv.DictReader`
(header handling, blank-record skipping, field lookup by raw fieldname
with `restval=None`) and the function `import_csv_stream` are embedded
below.  The SQLite table `customers` (UNIQUE email, AUTOINCREMENT id) is
embedded as `Db`; a generic `Store` interface keeps the distinction the
code makes between `sqlite3.IntegrityError` (caught, per-row outcome) and
any other storage exception (propagated).
-/

/-- Python strings as character lists. -/
abbrev Str := List Char

/-- Convert a Lean string literal to the model's string type. -/
def str (s : String) : Str := s.toList

/-- ASCII whitespace as recognised both by Python `str.strip()` (via
`str.isspace`) and by the regex class `\s`: space, tab, newline, carriage
return, vertical tab, form feed, and the ASCII file/group/record/unit
separators.  (Unicode-only whitespace is outside the modelled set; the two
Python notions agree on the characters modelled here, and neither treats
U+FEFF as whitespace.) -/
def pyIsSpace (c : Char) : Bool :=
  c = ' ' || c = '\t' || c = '\n' || c = '\x0d' ||
  c = '\x0b' || c = '\x0c' || c = '\x1c' || c = '\x1d' || c = '\x1e' || c = '\x1f'

/-- Python `s.strip()`: drop leading and trailing whitespace. -/
def pyStrip (l : Str) : Str :=
  ((l.dropWhile pyIsSpace).reverse.dropWhile pyIsSpace).reverse

/-- Python `s.lower()` (ASCII letters; other characters unchanged). -/
def pyLower (l : Str) : Str := l.map Char.toLower

/-- The composite `c.strip().lower()` applied to each header cell in the
header check of `import_csv_stream` (src/app.py line 82). -/
def stripLower (l : Str) : Str := pyLower (pyStrip l)

/-- One character of the regex class `[^@\s]` of `EMAIL_RE`
(src/app.py line 21). -/
def emailClassOk (c : Char) : Bool := !(c = '@') && !(pyIsSpace c)

/-- The domain part of `EMAIL_RE` must contain a `.` that is neither its
first nor its last character (so that both `[^@\s]+` runs around the
literal `\.` are nonempty; dots are themselves in the class `[^@\s]`). -/
def interiorDot (dom : Str) : Bool := ((dom.drop 1).dropLast).contains '.'

/-- `EMAIL_RE.match(s)` for `EMAIL_RE = ^[^@\s]+@[^@\s]+\.[^@\s]+$`
(src/app.py lines 21 and 96).  Every class in the pattern excludes `@`,
and the pattern contains exactly one literal `@`, so a match forces the
string to split at a unique `@` into `loc` and `dom`; `loc` matches
`[^@\s]+` iff it is nonempty and whitespace-free, and `dom` matches
`[^@\s]+\.[^@\s]+` iff it is whitespace-free with an interior dot.  (The
`$`-before-trailing-newline quirk of Python regexes is unreachable: the
address is stripped before matching, so it never ends in a newline.) -/
def emailMatch (l : Str) : Bool :=
  match l.splitOn '@' with
  | [loc, dom] =>
      !(loc.isEmpty) && loc.all emailClassOk && dom.all emailClassOk && interiorDot dom
  | _ => false

/-- After the first digit of a Python integer literal: digits, with single
underscores allowed only between digits (`int("1_000")` parses,
`int("1__0")`, `int("1_")` do not). -/
def digitsTail : Str → Bool
  | [] => true
  | '_' :: c :: rest => c.isDigit && digitsTail rest
  | c :: rest => c.isDigit && digitsTail rest

/-- A nonempty run of base-10 digits with legal underscores. -/
def digitsOk : Str → Bool
  | [] => false
  | c :: rest => c.isDigit && digitsTail rest

/-- Numeric value of a digit string (underscores already removed). -/
def digitsVal (l : Str) : Nat :=
  List.foldl (fun a c => 10 * a + (c.toNat - 48)) 0 l

/-- Unsigned part of Python `int(s)`. -/
def pyIntCore (l : Str) : Option Nat :=
  if digitsOk l then some (digitsVal (l.filter (fun c => !(c = '_')))) else none

/-- Python `int(s)` on an already-stripped string (src/app.py line 100):
optional sign, then base-10 digits with legal underscores; anything else
(empty string, floats like `"30.0"`, text) raises, modelled as `none`.
(Non-ASCII decimal digits are outside the modelled character set.) -/
def pyInt : Str → Option Int
  | '+' :: rest => (pyIntCore rest).map (fun n => (n : Int))
  | '-' :: rest => (pyIntCore rest).map (fun n => -(n : Int))
  | l => (pyIntCore l).map (fun n => (n : Int))

/-- The required header names `{"name", "email", "age"}`
(src/app.py line 81). -/
def requiredCols : List Str := [str "name", str "email", str "age"]

/-- The header check of src/app.py line 82:
`required.issubset(set(c.strip().lower() for c in fieldnames or []))`. -/
def headerOk (fns : List Str) : Bool :=
  requiredCols.all (fun r => (fns.map stripLower).contains r)

/-- `csv.DictReader` row lookup `row.get(key)`.  The reader builds
`dict(zip(fieldnames, row))` and then assigns `restval=None` to fieldnames
beyond the row's length, so the binding of a key is determined by its LAST
occurrence among the raw fieldnames: the value at that index if the row is
long enough, else `None`.  Extra row values beyond the header land under
`restkey=None` and are never read.  Keys are the RAW fieldnames — not
stripped, not lower-cased. -/
def rowGet (fns vals : List Str) (key : Str) : Option Str :=
  match (fns.enum.filter (fun p => decide (p.2 = key))).getLast? with
  | none => none
  | some p => vals.get? p.1

/-- `(row.get(key) or "")` (src/app.py lines 89-91): `None` and the empty
string both collapse to the empty string. -/
def getField (fns vals : List Str) (key : Str) : Str :=
  (rowGet fns vals key).getD []

/-- `name = (row.get("name") or "").strip()` (src/app.py line 89). -/
def rowName (fns vals : List Str) : Str := pyStrip (getField fns vals (str "name"))

/-- `email = (row.get("email") or "").strip().lower()` (src/app.py line 90). -/
def rowEmail (fns vals : List Str) : Str :=
  pyLower (pyStrip (getField fns vals (str "email")))

/-- `age_s = (row.get("age") or "").strip()` (src/app.py line 91). -/
def rowAgeS (fns vals : List Str) : Str := pyStrip (getField fns vals (str "age"))

/-- Per-row failure reasons, one per `errors.append` branch of
`import_csv_stream`: `NameTooShort` = "name must be at least 2
characters", `InvalidEmail` = "invalid email", `InvalidAge` = "age must be
an integer 1-120", `DuplicateEmail` = "duplicate email (already
imported)". -/
inductive Reason where
  | NameTooShort
  | InvalidEmail
  | InvalidAge
  | DuplicateEmail
deriving DecidableEq

/-- The per-row validation chain of src/app.py lines 93-105, in source
order: name length, then email regex, then integer parse and range
`1 <= age <= 120` (the `except Exception` arm catches both the parse
failure and the explicitly raised range failure as the same outcome). -/
def validate (fns vals : List Str) : Except Reason (Str × Str × Int) :=
  if (rowName fns vals).length < 2 then .error .NameTooShort
  else if !(emailMatch (rowEmail fns vals)) then .error .InvalidEmail
  else
    match pyInt (rowAgeS fns vals) with
    | none => .error .InvalidAge
    | some a =>
        if a < 1 || 120 < a then .error .InvalidAge
        else .ok (rowName fns vals, rowEmail fns vals, a)

/-- A UTC wall-clock reading at second precision, the data
`datetime.utcnow()` contributes to `isoformat(timespec="seconds")`. -/
structure Utc where
  year : Nat
  month : Nat
  day : Nat
  hour : Nat
  minute : Nat
  second : Nat
deriving DecidableEq

/-- Decimal digit character for `n % 10`. -/
def digitChar (n : Nat) : Char := Char.ofNat (48 + n % 10)

/-- Two-digit zero-padded field of `datetime.isoformat`. -/
def pad2 (n : Nat) : Str := [digitChar (n / 10), digitChar n]

/-- Four-digit zero-padded year of `datetime.isoformat` (datetime years
are between 1 and 9999). -/
def pad4 (n : Nat) : Str :=
  [digitChar (n / 1000), digitChar (n / 100), digitChar (n / 10), digitChar n]

/-- `datetime.utcnow().isoformat(timespec="seconds") + "Z"`
(src/app.py line 109). -/
def isoZ (t : Utc) : Str :=
  pad4 t.year ++ '-' :: pad2 t.month ++ '-' :: pad2 t.day ++
  'T' :: pad2 t.hour ++ ':' :: pad2 t.minute ++ ':' :: pad2 t.second ++ ['Z']

/-- Shape check: `YYYY-MM-DDTHH:MM:SSZ` — an ISO-8601 UTC timestamp at
second precision with a trailing `Z`. -/
def isoSecondShape (l : Str) : Bool :=
  match l with
  | [y1, y2, y3, y4, '-', m1, m2, '-', d1, d2, 'T',
     h1, h2, ':', n1, n2, ':', s1, s2, 'Z'] =>
      y1.isDigit && y2.isDigit && y3.isDigit && y4.isDigit &&
      m1.isDigit && m2.isDigit && d1.isDigit && d2.isDigit &&
      h1.isDigit && h2.isDigit && n1.isDigit && n2.isDigit &&
      s1.isDigit && s2.isDigit
  | _ => false

/-- The record handed to the INSERT statement
(src/app.py line 108-109): normalized name, email, age, created_at. -/
structure Rec where
  name : Str
  email : Str
  age : Int
  created_at : Str
deriving DecidableEq

/-- A persisted row of the `customers` table (src/app.py lines 69-75):
store-assigned integer primary key plus the inserted fields. -/
structure DbRec where
  id : Nat
  name : Str
  email : Str
  age : Int
  created_at : Str
deriving DecidableEq

/-- The SQLite `customers` table: rows in insertion order plus the next
AUTOINCREMENT id. -/
structure Db where
  nextId : Nat
  rows : List DbRec
deriving DecidableEq

/-- A freshly created database (AUTOINCREMENT starts at 1). -/
def emptyDb : Db := ⟨1, []⟩

/-- Outcome of one store insert, as distinguished by the `except` clause
at src/app.py line 111: success, a uniqueness conflict
(`sqlite3.IntegrityError` from the UNIQUE email column), or any other
storage exception. -/
inductive InsResult (σ : Type) where
  | ok (s : σ)
  | conflict
  | fault (msg : Str)
deriving DecidableEq

/-- The persistence interface the pipeline consumes: one insert
operation. -/
structure Store (σ : Type) where
  insert : σ → Rec → InsResult σ

/-- The SQLite store: the UNIQUE constraint on `email` raises
`IntegrityError` exactly when the value being inserted is already present;
otherwise the row is appended with the next AUTOINCREMENT id.  (This pure
model has no other failure modes; the generic `Store` carries those.) -/
def sqliteInsert (s : Db) (r : Rec) : InsResult Db :=
  if s.rows.any (fun q => decide (q.email = r.email)) then .conflict
  else .ok ⟨s.nextId + 1, s.rows ++ [⟨s.nextId, r.name, r.email, r.age, r.created_at⟩]⟩

def sqliteStore : Store Db := ⟨sqliteInsert⟩

/-- Call-level failures of `import_csv_stream`: the `ValueError` raised
for a bad header (src/app.py line 83), or a propagated storage
exception. -/
inductive PipeErr where
  | header
  | storeFault (msg : Str)
deriving DecidableEq

/-- One entry of the `errors` list: 1-based row number (header = row 1)
and the reason recorded for it. -/
structure RowErr where
  row : Nat
  reason : Reason
deriving DecidableEq

/-- The `for i, row in enumerate(reader, start=2)` loop of
src/app.py lines 88-112 over the non-blank data records, threading the
store state: a validation failure or a uniqueness conflict records one
`RowErr` and continues; a successful insert increments the counter; any
other store failure aborts the whole call. -/
def runRows {σ : Type} (st : Store σ) (clock : Nat → Utc) (fns : List Str) :
    Nat → σ → List (List Str) → Except PipeErr (σ × Nat × List RowErr)
  | _, s, [] => .ok (s, 0, [])
  | i, s, vals :: rest =>
    match validate fns vals with
    | .error r =>
        match runRows st clock fns (i + 1) s rest with
        | .ok (s2, k, es) => .ok (s2, k, ⟨i, r⟩ :: es)
        | .error e => .error e
    | .ok (n, e, a) =>
        match st.insert s ⟨n, e, a, isoZ (clock i)⟩ with
        | .ok s1 =>
            match runRows st clock fns (i + 1) s1 rest with
            | .ok (s2, k, es) => .ok (s2, k + 1, es)
            | .error err => .error err
        | .conflict =>
            match runRows st clock fns (i + 1) s rest with
            | .ok (s2, k, es) => .ok (s2, k, ⟨i, .DuplicateEmail⟩ :: es)
            | .error err => .error err
        | .fault m => .error (.storeFault m)

/-- `import_csv_stream` (src/app.py lines 79-114) over the record list the
`csv` reader yields.  The first record (or `[]` when the input is empty,
matching `reader.fieldnames or []`) is the header; the required-name check
runs before any row; `DictReader` silently skips blank records
(`while row == []`), so the loop numbers only non-blank data records,
consecutively from 2. -/
def importCsv {σ : Type} (st : Store σ) (clock : Nat → Utc)
    (input : List (List Str)) (s : σ) : Except PipeErr (σ × Nat × List RowErr) :=
  let fns := (input.head?).getD []
  if !(headerOk fns) then .error .header
  else runRows st clock fns 2 s ((input.drop 1).filter (fun r => !(r.isEmpty)))

/-- The `/export` listing `SELECT name,email,age,created_at FROM customers
ORDER BY id` (src/app.py line 149): with ids assigned by AUTOINCREMENT in
insertion order, this is the row list oldest-first. -/
def listAll (s : Db) : List DbRec := s.rows

/-- Ids strictly increasing along the row list (the well-formedness under
which `ORDER BY id` is the identity on insertion order). -/
def idsIncreasing : List DbRec → Bool
  | [] => true
  | [_] => true
  | a :: b :: rest => (a.id < b.id) && idsIncreasing (b :: rest)

/-- Database well-formedness: ids strictly increasing and all below the
next AUTOINCREMENT value. -/
def dbWf (s : Db) : Bool :=
  idsIncreasing s.rows && s.rows.all (fun r => r.id < s.nextId)

/-- Stored emails pairwise distinct (the UNIQUE column invariant). -/
def distinctEmails : List DbRec → Bool
  | [] => true
  | r :: rest => !(rest.any (fun q => decide (q.email = r.email))) && distinctEmails rest

/-- Row errors listed with strictly increasing row numbers. -/
def rowsOrdered : List RowErr → Bool
  | [] => true
  | [_] => true
  | a :: b :: rest => (a.row < b.row) && rowsOrdered (b :: rest)

/-- A fixed test clock. -/
def clk0 : Nat → Utc := fun _ => ⟨2024, 1, 1, 0, 0, 0⟩

/-- The canonical all-lower-case header record. -/
def lcHdr : List Str := [str "name", str "email", str "age"]

/-! ### Helper lemmas -/

/-- A digit character produced by `digitChar` is always an ASCII digit. -/
theorem digitChar_isDigit (n : Nat) : (digitChar n).isDigit = true := by
  unfold digitChar
  have h10 : n % 10 < 10 := Nat.mod_lt _ (by decide)
  set m := n % 10 with hm
  interval_cases m <;> decide

/-- The SQLite model never reports a non-conflict failure. -/
theorem sqliteInsert_ne_fault (s : Db) (r : Rec) (m : Str) :
    sqliteInsert s r ≠ .fault m := by
  unfold sqliteInsert
  split <;> simp

/-- A successful SQLite insert appends exactly one new row carrying the
inserted fields and the next AUTOINCREMENT id. -/
theorem sqliteInsert_ok_rows (s : Db) (r : Rec) (s1 : Db)
    (h : sqliteInsert s r = .ok s1) :
    s1 = ⟨s.nextId + 1,
          s.rows ++ [⟨s.nextId, r.name, r.email, r.age, r.created_at⟩]⟩ := by
  unfold sqliteInsert at h
  split at h
  · exact absurd h (by simp)
  · simpa using h.symm

/-- A SQLite insert conflicts exactly when the email is already stored. -/
theorem sqliteInsert_conflict_iff (s : Db) (r : Rec) :
    sqliteInsert s r = .conflict ↔
      s.rows.any (fun q => decide (q.email = r.email)) = true := by
  unfold sqliteInsert
  split <;> simp_all

/-- `runRows` never raises the header error: its only call-level failure
is a propagated store fault. -/
theorem runRows_ne_header {σ : Type} (st : Store σ) (clock : Nat → Utc)
    (fns : List Str) :
    ∀ (rows : List (List Str)) (i : Nat) (s : σ),
      runRows st clock fns i s rows ≠ .error .header := by
  intro rows
  induction rows with
  | nil => intro i s h; simp [runRows] at h
  | cons vals rest ih =>
      intro i s h
      rw [runRows] at h
      cases hv : validate fns vals with
      | error r =>
          simp only [hv] at h
          cases hrec : runRows st clock fns (i + 1) s rest with
          | ok v => obtain ⟨s2, k, es⟩ := v; simp only [hrec] at h; simp at h
          | error e =>
              simp only [hrec] at h
              simp at h
              exact ih (i + 1) s (hrec.trans (by rw [h]))
      | ok v =>
          obtain ⟨n, e, a⟩ := v
          simp only [hv] at h
          cases hins : st.insert s ⟨n, e, a, isoZ (clock i)⟩ with
          | ok s1 =>
              simp only [hins] at h
              cases hrec : runRows st clock fns (i + 1) s1 rest with
              | ok v2 => obtain ⟨s2, k, es⟩ := v2; simp only [hrec] at h; simp at h
              | error e2 =>
                  simp only [hrec] at h
                  simp at h
                  exact ih (i + 1) s1 (hrec.trans (by rw [h]))
          | conflict =>
              simp only [hins] at h
              cases hrec : runRows st clock fns (i + 1) s rest with
              | ok v2 => obtain ⟨s2, k, es⟩ := v2; simp only [hrec] at h; simp at h
              | error e2 =>
                  simp only [hrec] at h
                  simp at h
                  exact ih (i + 1) s (hrec.trans (by rw [h]))
          | fault m => simp only [hins] at h; simp at h

/-- Unfolding of one loop step on a row that fails validation
(src/app.py lines 93-105): record the reason, continue. -/
theorem runRows_cons_invalid {σ : Type} (st : Store σ) (clock : Nat → Utc)
    (fns : List Str) (i : Nat) (s : σ) (vals : List Str)
    (rest : List (List Str)) (r : Reason)
    (hv : validate fns vals = .error r) :
    runRows st clock fns i s (vals :: rest) =
      match runRows st clock fns (i + 1) s rest with
      | .ok (s2, k, es) => .ok (s2, k, ⟨i, r⟩ :: es)
      | .error e => .error e := by
  rw [runRows]
  simp only [hv]

/-- Unfolding of one loop step on a validated row whose insert succeeds
(src/app.py lines 107-110): count it, continue with the new store. -/
theorem runRows_cons_inserted {σ : Type} (st : Store σ) (clock : Nat → Utc)
    (fns : List Str) (i : Nat) (s s1 : σ) (vals : List Str)
    (rest : List (List Str)) (n e : Str) (a : Int)
    (hv : validate fns vals = .ok (n, e, a))
    (hins : st.insert s ⟨n, e, a, isoZ (clock i)⟩ = .ok s1) :
    runRows st clock fns i s (vals :: rest) =
      match runRows st clock fns (i + 1) s1 rest with
      | .ok (s2, k, es) => .ok (s2, k + 1, es)
      | .error err => .error err := by
  rw [runRows]
  simp only [hv, hins]

/-- Unfolding of one loop step on a validated row whose insert reports a
uniqueness conflict (src/app.py lines 111-112): record `DuplicateEmail`,
continue with the store unchanged. -/
theorem runRows_cons_conflict {σ : Type} (st : Store σ) (clock : Nat → Utc)
    (fns : List Str) (i : Nat) (s : σ) (vals : List Str)
    (rest : List (List Str)) (n e : Str) (a : Int)
    (hv : validate fns vals = .ok (n, e, a))
    (hins : st.insert s ⟨n, e, a, isoZ (clock i)⟩ = .conflict) :
    runRows st clock fns i s (vals :: rest) =
      match runRows st clock fns (i + 1) s rest with
      | .ok (s2, k, es) => .ok (s2, k, ⟨i, .DuplicateEmail⟩ :: es)
      | .error err => .error err := by
  rw [runRows]
  simp only [hv, hins]

/-- Unfolding of one loop step on a validated row whose insert fails with
anything other than a uniqueness conflict: the exception is not caught and
the whole call aborts. -/
theorem runRows_cons_fault {σ : Type} (st : Store σ) (clock : Nat → Utc)
    (fns : List Str) (i : Nat) (s : σ) (vals : List Str)
    (rest : List (List Str)) (n e : Str) (a : Int) (m : Str)
    (hv : validate fns vals = .ok (n, e, a))
    (hins : st.insert s ⟨n, e, a, isoZ (clock i)⟩ = .fault m) :
    runRows st clock fns i s (vals :: rest) = .error (.storeFault m) := by
  rw [runRows]
  simp only [hv, hins]

/-- Consing an earlier row number onto an ordered error list keeps it
ordered. -/
theorem rowsOrdered_cons (i : Nat) (r : Reason) (es : List RowErr)
    (h1 : rowsOrdered es = true) (h2 : ∀ e ∈ es, i < e.row) :
    rowsOrdered (⟨i, r⟩ :: es) = true := by
  cases es with
  | nil => rfl
  | cons b tl =>
      rw [rowsOrdered]
      exact (Bool.and_eq_true _ _).mpr ⟨by simpa using h2 b (by simp), h1⟩

/-- The loop over the SQLite store always terminates normally (the model
store never faults), and its summary satisfies the accounting contract:
inserted + failures = number of rows, failure row numbers strictly
increasing and confined to the numbered range. -/
theorem runRows_sqlite_spec (clock : Nat → Utc) (fns : List Str) :
    ∀ (rows : List (List Str)) (i : Nat) (s : Db),
      ∃ s2 k es, runRows sqliteStore clock fns i s rows = .ok (s2, k, es)
        ∧ k + es.length = rows.length
        ∧ rowsOrdered es = true
        ∧ (∀ e ∈ es, i ≤ e.row ∧ e.row < i + rows.length) := by
  intro rows
  induction rows with
  | nil =>
      intro i s
      exact ⟨s, 0, [], rfl, rfl, rfl, by simp⟩
  | cons vals rest ih =>
      intro i s
      cases hv : validate fns vals with
      | error r =>
          obtain ⟨s2, k, es, hrun, hlen, hord, hrng⟩ := ih (i + 1) s
          refine ⟨s2, k, ⟨i, r⟩ :: es, ?_, ?_, ?_, ?_⟩
          · rw [runRows_cons_invalid sqliteStore clock fns i s vals rest r hv, hrun]
          · simp only [List.length_cons]; omega
          · exact rowsOrdered_cons i r es hord (fun e he => by
              have := (hrng e he).1; omega)
          · intro e he
            rcases List.mem_cons.mp he with h | h
            · subst h; simp only [List.length_cons]; omega
            · have := hrng e h; simp only [List.length_cons]; omega
      | ok v =>
          obtain ⟨n, e, a⟩ := v
          cases hins : sqliteStore.insert s ⟨n, e, a, isoZ (clock i)⟩ with
          | ok s1 =>
              obtain ⟨s2, k, es, hrun, hlen, hord, hrng⟩ := ih (i + 1) s1
              refine ⟨s2, k + 1, es, ?_, ?_, hord, ?_⟩
              · rw [runRows_cons_inserted sqliteStore clock fns i s s1 vals rest n e a hv hins, hrun]
              · simp only [List.length_cons]; omega
              · intro x hx; have := hrng x hx; simp only [List.length_cons]; omega
          | conflict =>
              obtain ⟨s2, k, es, hrun, hlen, hord, hrng⟩ := ih (i + 1) s
              refine ⟨s2, k, ⟨i, .DuplicateEmail⟩ :: es, ?_, ?_, ?_, ?_⟩
              · rw [runRows_cons_conflict sqliteStore clock fns i s vals rest n e a hv hins, hrun]
              · simp only [List.length_cons]; omega
              · exact rowsOrdered_cons i _ es hord (fun x hx => by
                  have := (hrng x hx).1; omega)
              · intro x hx
                rcases List.mem_cons.mp hx with h | h
                · subst h; simp only [List.length_cons]; omega
                · have := hrng x h; simp only [List.length_cons]; omega
          | fault m => exact absurd hins (sqliteInsert_ne_fault s _ m)

/-- Rows evolve by appending only: the final table of a loop run is the
initial table plus a tail of newly inserted records, each carrying a
`created_at` produced by the clock through `isoformat` + `"Z"`. -/
theorem runRows_sqlite_rows (clock : Nat → Utc) (fns : List Str) :
    ∀ (rows : List (List Str)) (i : Nat) (s s2 : Db) (k : Nat) (es : List RowErr),
      runRows sqliteStore clock fns i s rows = .ok (s2, k, es) →
      ∃ t, s2.rows = s.rows ++ t ∧ ∀ r ∈ t, ∃ j, r.created_at = isoZ (clock j) := by
  intro rows
  induction rows with
  | nil =>
      intro i s s2 k es h
      rw [runRows] at h
      simp only [Except.ok.injEq, Prod.mk.injEq] at h
      exact ⟨[], by rw [← h.1]; simp, by simp⟩
  | cons vals rest ih =>
      intro i s s2 k es h
      cases hv : validate fns vals with
      | error r =>
          rw [runRows_cons_invalid sqliteStore clock fns i s vals rest r hv] at h
          cases hrec : runRows sqliteStore clock fns (i + 1) s rest with
          | ok v =>
              obtain ⟨sr, kr, esr⟩ := v
              simp only [hrec, Except.ok.injEq, Prod.mk.injEq] at h
              obtain ⟨h1, _, _⟩ := h
              exact h1 ▸ ih (i + 1) s sr kr esr hrec
          | error e2 => simp only [hrec] at h; exact absurd h (by simp)
      | ok v =>
          obtain ⟨n, e, a⟩ := v
          cases hins : sqliteStore.insert s ⟨n, e, a, isoZ (clock i)⟩ with
          | ok s1 =>
              rw [runRows_cons_inserted sqliteStore clock fns i s s1 vals rest n e a hv hins] at h
              cases hrec : runRows sqliteStore clock fns (i + 1) s1 rest with
              | ok v2 =>
                  obtain ⟨sr, kr, esr⟩ := v2
                  simp only [hrec, Except.ok.injEq, Prod.mk.injEq] at h
                  obtain ⟨h1, _, _⟩ := h
                  obtain ⟨t, ht, htc⟩ := h1 ▸ ih (i + 1) s1 sr kr esr hrec
                  have hs1 := sqliteInsert_ok_rows s _ s1 hins
                  refine ⟨⟨s.nextId, n, e, a, isoZ (clock i)⟩ :: t, ?_, ?_⟩
                  · rw [ht, hs1]; simp
                  · intro r hr
                    rcases List.mem_cons.mp hr with h' | h'
                    · exact ⟨i, by rw [h']⟩
                    · exact htc r h'
              | error e2 => simp only [hrec] at h; exact absurd h (by simp)
          | conflict =>
              rw [runRows_cons_conflict sqliteStore clock fns i s vals rest n e a hv hins] at h
              cases hrec : runRows sqliteStore clock fns (i + 1) s rest with
              | ok v2 =>
                  obtain ⟨sr, kr, esr⟩ := v2
                  simp only [hrec, Except.ok.injEq, Prod.mk.injEq] at h
                  obtain ⟨h1, _, _⟩ := h
                  exact h1 ▸ ih (i + 1) s sr kr esr hrec
              | error e2 => simp only [hrec] at h; exact absurd h (by simp)
          | fault m => exact absurd hins (sqliteInsert_ne_fault s _ m)

/-- Appending a record with a strictly larger id keeps the id order. -/
theorem idsIncreasing_append (x : DbRec) :
    ∀ (l : List DbRec), idsIncreasing l = true → (∀ r ∈ l, r.id < x.id) →
      idsIncreasing (l ++ [x]) = true := by
  intro l
  induction l with
  | nil => intro _ _; rfl
  | cons a tl ih =>
      intro h1 h2
      cases tl with
      | nil =>
          have := h2 a (by simp)
          simp only [List.cons_append, List.nil_append, idsIncreasing]
          simp [this]
      | cons b tl2 =>
          rw [idsIncreasing] at h1
          obtain ⟨hab, h1t⟩ := (Bool.and_eq_true _ _).mp h1
          have htail : idsIncreasing ((b :: tl2) ++ [x]) = true :=
            ih h1t (fun r hr => h2 r (List.mem_cons_of_mem a hr))
          simp only [List.cons_append] at htail ⊢
          rw [idsIncreasing]
          exact (Bool.and_eq_true _ _).mpr ⟨hab, htail⟩

/-- A successful insert preserves database well-formedness: ids stay
strictly increasing and below the bumped AUTOINCREMENT counter. -/
theorem sqliteInsert_wf (s : Db) (r : Rec) (s1 : Db)
    (h : sqliteInsert s r = .ok s1) (hwf : dbWf s = true) : dbWf s1 = true := by
  have hs1 := sqliteInsert_ok_rows s r s1 h
  unfold dbWf at hwf
  obtain ⟨hinc, hbnd⟩ := (Bool.and_eq_true _ _).mp hwf
  have hbnd' : ∀ q ∈ s.rows, q.id < s.nextId := by
    intro q hq
    simpa using (List.all_eq_true.mp hbnd) q hq
  subst hs1
  unfold dbWf
  refine (Bool.and_eq_true _ _).mpr ⟨?_, ?_⟩
  · exact idsIncreasing_append _ _ hinc hbnd'
  · refine List.all_eq_true.mpr ?_
    intro q hq
    rcases List.mem_append.mp hq with h' | h'
    · have := hbnd' q h'; simp; omega
    · simp at h'; subst h'; simp

/-- The loop preserves database well-formedness. -/
theorem runRows_sqlite_wf (clock : Nat → Utc) (fns : List Str) :
    ∀ (rows : List (List Str)) (i : Nat) (s s2 : Db) (k : Nat) (es : List RowErr),
      runRows sqliteStore clock fns i s rows = .ok (s2, k, es) →
      dbWf s = true → dbWf s2 = true := by
  intro rows
  induction rows with
  | nil =>
      intro i s s2 k es h hwf
      rw [runRows] at h
      simp only [Except.ok.injEq, Prod.mk.injEq] at h
      exact h.1 ▸ hwf
  | cons vals rest ih =>
      intro i s s2 k es h hwf
      cases hv : validate fns vals with
      | error r =>
          rw [runRows_cons_invalid sqliteStore clock fns i s vals rest r hv] at h
          cases hrec : runRows sqliteStore clock fns (i + 1) s rest with
          | ok v =>
              obtain ⟨sr, kr, esr⟩ := v
              simp only [hrec, Except.ok.injEq, Prod.mk.injEq] at h
              exact h.1 ▸ ih (i + 1) s sr kr esr hrec hwf
          | error e2 => simp only [hrec] at h; exact absurd h (by simp)
      | ok v =>
          obtain ⟨n, e, a⟩ := v
          cases hins : sqliteStore.insert s ⟨n, e, a, isoZ (clock i)⟩ with
          | ok s1 =>
              rw [runRows_cons_inserted sqliteStore clock fns i s s1 vals rest n e a hv hins] at h
              cases hrec : runRows sqliteStore clock fns (i + 1) s1 rest with
              | ok v2 =>
                  obtain ⟨sr, kr, esr⟩ := v2
                  simp only [hrec, Except.ok.injEq, Prod.mk.injEq] at h
                  exact h.1 ▸ ih (i + 1) s1 sr kr esr hrec (sqliteInsert_wf s _ s1 hins hwf)
              | error e2 => simp only [hrec] at h; exact absurd h (by simp)
          | conflict =>
              rw [runRows_cons_conflict sqliteStore clock fns i s vals rest n e a hv hins] at h
              cases hrec : runRows sqliteStore clock fns (i + 1) s rest with
              | ok v2 =>
                  obtain ⟨sr, kr, esr⟩ := v2
                  simp only [hrec, Except.ok.injEq, Prod.mk.injEq] at h
                  exact h.1 ▸ ih (i + 1) s sr kr esr hrec hwf
              | error e2 => simp only [hrec] at h; exact absurd h (by simp)
          | fault m => exact absurd hins (sqliteInsert_ne_fault s _ m)

/-- Appending a record whose email is absent keeps emails pairwise
distinct. -/
theorem distinctEmails_append (x : DbRec) :
    ∀ (l : List DbRec), distinctEmails l = true →
      l.any (fun q => decide (q.email = x.email)) = false →
      distinctEmails (l ++ [x]) = true := by
  intro l
  induction l with
  | nil => intro _ _; simp [distinctEmails]
  | cons r tl ih =>
      intro h1 h2
      rw [distinctEmails] at h1
      obtain ⟨hr, h1t⟩ := (Bool.and_eq_true _ _).mp h1
      simp only [List.any_cons, Bool.or_eq_false_iff] at h2
      obtain ⟨hrx, h2t⟩ := h2
      simp only [List.cons_append]
      rw [distinctEmails]
      refine (Bool.and_eq_true _ _).mpr ⟨?_, ih h1t h2t⟩
      simp only [List.any_append, Bool.or_eq_false_iff, Bool.not_eq_true']
      constructor
      · simpa using hr
      · simp only [List.any_cons, List.any_nil, Bool.or_false]
        simp only [decide_eq_false_iff_not] at hrx ⊢
        exact fun hh => hrx hh.symm

/-- A successful insert preserves email distinctness (the insert only
succeeds when the email is absent). -/
theorem sqliteInsert_distinct (s : Db) (r : Rec) (s1 : Db)
    (h : sqliteInsert s r = .ok s1) (hd : distinctEmails s.rows = true) :
    distinctEmails s1.rows = true := by
  have habs : s.rows.any (fun q => decide (q.email = r.email)) = false := by
    unfold sqliteInsert at h
    split at h
    · exact absurd h (by simp)
    · simpa using (by assumption : ¬ s.rows.any (fun q => decide (q.email = r.email)) = true)
  have hs1 := sqliteInsert_ok_rows s r s1 h
  subst hs1
  exact distinctEmails_append _ _ hd habs

/-- The loop preserves email distinctness: the UNIQUE constraint is the
only mechanism needed to keep stored emails unique. -/
theorem runRows_sqlite_distinct (clock : Nat → Utc) (fns : List Str) :
    ∀ (rows : List (List Str)) (i : Nat) (s s2 : Db) (k : Nat) (es : List RowErr),
      runRows sqliteStore clock fns i s rows = .ok (s2, k, es) →
      distinctEmails s.rows = true → distinctEmails s2.rows = true := by
  intro rows
  induction rows with
  | nil =>
      intro i s s2 k es h hd
      rw [runRows] at h
      simp only [Except.ok.injEq, Prod.mk.injEq] at h
      exact h.1 ▸ hd
  | cons vals rest ih =>
      intro i s s2 k es h hd
      cases hv : validate fns vals with
      | error r =>
          rw [runRows_cons_invalid sqliteStore clock fns i s vals rest r hv] at h
          cases hrec : runRows sqliteStore clock fns (i + 1) s rest with
          | ok v =>
              obtain ⟨sr, kr, esr⟩ := v
              simp only [hrec, Except.ok.injEq, Prod.mk.injEq] at h
              exact h.1 ▸ ih (i + 1) s sr kr esr hrec hd
          | error e2 => simp only [hrec] at h; exact absurd h (by simp)
      | ok v =>
          obtain ⟨n, e, a⟩ := v
          cases hins : sqliteStore.insert s ⟨n, e, a, isoZ (clock i)⟩ with
          | ok s1 =>
              rw [runRows_cons_inserted sqliteStore clock fns i s s1 vals rest n e a hv hins] at h
              cases hrec : runRows sqliteStore clock fns (i + 1) s1 rest with
              | ok v2 =>
                  obtain ⟨sr, kr, esr⟩ := v2
                  simp only [hrec, Except.ok.injEq, Prod.mk.injEq] at h
                  exact h.1 ▸ ih (i + 1) s1 sr kr esr hrec (sqliteInsert_distinct s _ s1 hins hd)
              | error e2 => simp only [hrec] at h; exact absurd h (by simp)
          | conflict =>
              rw [runRows_cons_conflict sqliteStore clock fns i s vals rest n e a hv hins] at h
              cases hrec : runRows sqliteStore clock fns (i + 1) s rest with
              | ok v2 =>
                  obtain ⟨sr, kr, esr⟩ := v2
                  simp only [hrec, Except.ok.injEq, Prod.mk.injEq] at h
                  exact h.1 ▸ ih (i + 1) s sr kr esr hrec hd
              | error e2 => simp only [hrec] at h; exact absurd h (by simp)
          | fault m => exact absurd hins (sqliteInsert_ne_fault s _ m)

/-! ### Claims -/

/-- C1: validation runs in the fixed order name, then email, then age,
first failure wins: a too-short trimmed name yields `NameTooShort`
whatever the other fields hold; a valid name with a non-matching
normalized email yields `InvalidEmail` whatever the age holds; and the age
check is reached (an `InvalidAge` or a success outcome) only when both the
name and the email checks passed. -/
theorem claim1_validation_order (fns vals : List Str) :
    ((rowName fns vals).length < 2 → validate fns vals = .error .NameTooShort)
    ∧ (2 ≤ (rowName fns vals).length → emailMatch (rowEmail fns vals) = false →
        validate fns vals = .error .InvalidEmail)
    ∧ ((validate fns vals = .error .InvalidAge ∨ ∃ v, validate fns vals = .ok v) →
        2 ≤ (rowName fns vals).length ∧ emailMatch (rowEmail fns vals) = true) := by
  refine ⟨?_, ?_, ?_⟩
  · intro h
    unfold validate
    rw [if_pos h]
  · intro h1 h2
    unfold validate
    rw [if_neg (by omega), if_pos (by simp [h2])]
  · intro h
    unfold validate at h
    by_cases hn : (rowName fns vals).length < 2
    · rw [if_pos hn] at h
      rcases h with h | ⟨v, h⟩ <;> simp at h
    · rw [if_neg hn] at h
      by_cases he : emailMatch (rowEmail fns vals)
      · exact ⟨by omega, he⟩
      · rw [if_pos (by simp [he])] at h
        rcases h with h | ⟨v, h⟩ <;> simp at h

/-- Witness for C1: a one-letter name is reported `NameTooShort` even
though email and age are also invalid, and a valid name with a malformed
email is reported `InvalidEmail` even though the age is also invalid. -/
theorem claim1_validation_order_witness :
    validate lcHdr [str "A", str "nonsense", str "999"] = .error .NameTooShort
    ∧ validate lcHdr [str "Bob", str "bob@example", str "999"] = .error .InvalidEmail :=
  ⟨(claim1_validation_order lcHdr [str "A", str "nonsense", str "999"]).1 (by decide),
   (claim1_validation_order lcHdr [str "Bob", str "bob@example", str "999"]).2.1
     (by decide) (by decide)⟩

/-- C3: `import_csv_stream` raises its header `ValueError` exactly when
the first record (or the empty header of an empty stream) does not
contain, after strip-and-lower, all three required column names — extra
columns never matter since only a subset check runs — and in that case it
fails before touching any row: the result is the header error for every
store, every store state and every data-row suffix, so no row outcome is
produced and no record is written. -/
theorem claim3_header_error : ∀ (σ : Type) (st : Store σ) (clock : Nat → Utc)
    (input : List (List Str)) (s : σ),
    (importCsv st clock input s = .error .header ↔
      headerOk ((input.head?).getD []) = false)
    ∧ (headerOk ((input.head?).getD []) = false →
        ∀ input2 : List (List Str), input2.head? = input.head? →
          importCsv st clock input2 s = importCsv st clock input s) := by
  intro σ st clock input s
  constructor
  · by_cases h : headerOk ((input.head?).getD [])
    · unfold importCsv
      rw [if_neg (by simp [h])]
      simp only [h]
      constructor
      · intro hcontra
        exact absurd hcontra (runRows_ne_header st clock _ _ 2 s)
      · intro hfalse
        exact absurd hfalse (by simp)
    · unfold importCsv
      rw [if_pos (by simp only [Bool.not_eq_true] at h; simp [h])]
      simp only [Bool.not_eq_true] at h
      simp [h]
  · intro h input2 h2
    unfold importCsv
    rw [h2, if_pos (by simp [h]), if_pos (by simp [h])]

/-- Witness for C3: the spec's own example — a header missing the age
column — is rejected as a header error against the SQLite store. -/
theorem claim3_header_error_witness :
    importCsv sqliteStore clk0 [[str "name", str "email"],
      [str "Alice", str "alice@example.com"]] emptyDb = .error .header :=
  (claim3_header_error Db sqliteStore clk0
    [[str "name", str "email"], [str "Alice", str "alice@example.com"]] emptyDb).1.mpr
    (by decide)

/-- C10: a completely blank line among the data rows produces no row
outcome at all — the import result is identical to the same input with
the blank record removed — and therefore the row numbers of subsequent
failures count only non-blank rows: in the concrete input below the bad
row on physical line 4 is reported as row 3. -/
theorem claim10_blank_rows :
    (∀ (σ : Type) (st : Store σ) (clock : Nat → Utc) (fns : List Str)
        (pre post : List (List Str)) (s : σ),
        importCsv st clock (fns :: (pre ++ ([] : List Str) :: post)) s =
          importCsv st clock (fns :: (pre ++ post)) s)
    ∧ importCsv sqliteStore clk0
        [lcHdr, [str "Alice", str "alice@example.com", str "30"], [],
         [str "Bob", str "bob@example", str "25"]] emptyDb =
      .ok (⟨2, [⟨1, str "Alice", str "alice@example.com", 30,
                 str "2024-01-01T00:00:00Z"⟩]⟩, 1, [⟨3, .InvalidEmail⟩]) := by
  constructor
  · intro σ st clock fns pre post s
    unfold importCsv
    simp [List.filter_append]
  · rfl

/-- C4: for a row whose name and email pass, the outcome is `InvalidAge`
iff the trimmed age string does not parse under Python `int` (strict
integer literals only — the float `"30.0"` is rejected, as the second
conjunct shows concretely) or the parsed integer lies outside `[1, 120]`;
the boundary ages 1 and 120 are accepted. -/
theorem claim4_age_validation :
    (∀ fns vals : List Str, 2 ≤ (rowName fns vals).length →
      emailMatch (rowEmail fns vals) = true →
      (validate fns vals = .error .InvalidAge ↔
        pyInt (rowAgeS fns vals) = none ∨
        ∃ a, pyInt (rowAgeS fns vals) = some a ∧ (a < 1 ∨ 120 < a)))
    ∧ pyInt (str "30.0") = none
    ∧ validate lcHdr [str "Al", str "a@b.co", str "1"] = .ok (str "Al", str "a@b.co", 1)
    ∧ validate lcHdr [str "Al", str "a@b.co", str "120"] =
        .ok (str "Al", str "a@b.co", 120) := by
  refine ⟨?_, rfl, rfl, rfl⟩
  intro fns vals h1 h2
  unfold validate
  rw [if_neg (by omega), if_neg (by simp [h2])]
  cases hp : pyInt (rowAgeS fns vals) with
  | none => simp
  | some a =>
      show (if a < 1 || 120 < a then Except.error Reason.InvalidAge
            else Except.ok (rowName fns vals, rowEmail fns vals, a)) =
          Except.error Reason.InvalidAge ↔
          (some a : Option Int) = none ∨
          ∃ b, (some a : Option Int) = some b ∧ (b < 1 ∨ 120 < b)
      by_cases ha : a < 1 ∨ 120 < a
      · rw [if_pos (by rcases ha with h | h <;> simp [h])]
        constructor
        · intro _
          exact Or.inr ⟨a, rfl, ha⟩
        · intro _
          rfl
      · have hc : ¬ ((a < 1 || 120 < a) = true) := by
          simp only [Bool.or_eq_true, decide_eq_true_eq]
          exact ha
        rw [if_neg hc]
        constructor
        · intro h
          exact absurd h (by simp)
        · rintro (h | ⟨b, hb, hrange⟩)
          · exact absurd h (by simp)
          · injection hb with hb
            exact absurd hrange (hb ▸ ha)

/-- Witness for C4: with valid name and email, the float `"30.0"` and the
out-of-range `"200"` are both reported `InvalidAge`. -/
theorem claim4_age_validation_witness :
    validate lcHdr [str "Al", str "a@b.co", str "30.0"] = .error .InvalidAge
    ∧ validate lcHdr [str "Al", str "a@b.co", str "200"] = .error .InvalidAge :=
  ⟨(claim4_age_validation.1 lcHdr [str "Al", str "a@b.co", str "30.0"]
      (by decide) (by decide)).mpr (Or.inl (by decide)),
   (claim4_age_validation.1 lcHdr [str "Al", str "a@b.co", str "200"]
      (by decide) (by decide)).mpr (Or.inr ⟨200, by decide, by decide⟩)⟩

/-- C2: for a row that passed validation, a store uniqueness conflict
records a `DuplicateEmail` outcome for that row and the loop continues
(with the store state unchanged) — the conflict arises both cross-
invocation (the witness inserts against a pre-populated store) and within
one file, as the closed third conjunct shows: the same valid row twice
yields first inserted, second `DuplicateEmail` — while any store failure
other than a uniqueness conflict aborts the whole ingestion with a
propagated error carrying no summary. -/
theorem claim2_duplicate_vs_fault :
    (∀ (σ : Type) (st : Store σ) (clock : Nat → Utc) (fns : List Str)
        (i : Nat) (s : σ) (vals : List Str) (rest : List (List Str))
        (n e : Str) (a : Int),
        validate fns vals = .ok (n, e, a) →
        st.insert s ⟨n, e, a, isoZ (clock i)⟩ = .conflict →
        runRows st clock fns i s (vals :: rest) =
          match runRows st clock fns (i + 1) s rest with
          | .ok (s2, k, es) => .ok (s2, k, ⟨i, .DuplicateEmail⟩ :: es)
          | .error err => .error err)
    ∧ (∀ (σ : Type) (st : Store σ) (clock : Nat → Utc) (fns : List Str)
        (i : Nat) (s : σ) (vals : List Str) (rest : List (List Str))
        (n e : Str) (a : Int) (m : Str),
        validate fns vals = .ok (n, e, a) →
        st.insert s ⟨n, e, a, isoZ (clock i)⟩ = .fault m →
        runRows st clock fns i s (vals :: rest) = .error (.storeFault m))
    ∧ importCsv sqliteStore clk0
        [lcHdr, [str "Alice", str "alice@example.com", str "30"],
                [str "Alice", str "alice@example.com", str "30"]] emptyDb =
      .ok (⟨2, [⟨1, str "Alice", str "alice@example.com", 30,
                 str "2024-01-01T00:00:00Z"⟩]⟩, 1, [⟨3, .DuplicateEmail⟩]) := by
  refine ⟨?_, ?_, rfl⟩
  · intro σ st clock fns i s vals rest n e a hv hins
    exact runRows_cons_conflict st clock fns i s vals rest n e a hv hins
  · intro σ st clock fns i s vals rest n e a m hv hins
    exact runRows_cons_fault st clock fns i s vals rest n e a m hv hins

/-- Witness for C2: against a store already holding alice's email from an
earlier invocation, the validated row is reported `DuplicateEmail` (row 2)
and processing of the (empty) remainder continues normally. -/
theorem claim2_duplicate_vs_fault_witness :
    runRows sqliteStore clk0 lcHdr 2
      ⟨2, [⟨1, str "Al", str "alice@example.com", 30, str "2024-01-01T00:00:00Z"⟩]⟩
      [[str "Alice", str "alice@example.com", str "30"]] =
      .ok (⟨2, [⟨1, str "Al", str "alice@example.com", 30, str "2024-01-01T00:00:00Z"⟩]⟩,
           0, [⟨2, .DuplicateEmail⟩]) := by
  rw [claim2_duplicate_vs_fault.1 Db sqliteStore clk0 lcHdr 2
    ⟨2, [⟨1, str "Al", str "alice@example.com", 30, str "2024-01-01T00:00:00Z"⟩]⟩
    [str "Alice", str "alice@example.com", str "30"] []
    (str "Alice") (str "alice@example.com") 30 rfl rfl]
  rfl

/-- With an accepted header, `import_csv_stream` is the row loop over the
non-blank data records, numbered from 2. -/
theorem importCsv_headerOk {σ : Type} (st : Store σ) (clock : Nat → Utc)
    (input : List (List Str)) (s : σ)
    (h : headerOk ((input.head?).getD []) = true) :
    importCsv st clock input s =
      runRows st clock ((input.head?).getD []) 2 s
        ((input.drop 1).filter (fun r => !(r.isEmpty))) := by
  unfold importCsv
  simp [h]

/-- C7: with a valid header and the SQLite store, the call returns an
Import Summary rather than raising (per-row failures never escape), each
non-blank data row contributes exactly one outcome — inserted count plus
number of failures equals the number of data rows — failures carry
strictly increasing 1-based row numbers starting at 2 and confined to the
data-row range, and an input with zero data rows yields inserted = 0 and
failures = []. -/
theorem claim7_summary_accounting (clock : Nat → Utc)
    (input : List (List Str)) (s : Db)
    (h : headerOk ((input.head?).getD []) = true) :
    ∃ s2 k es, importCsv sqliteStore clock input s = .ok (s2, k, es)
      ∧ k + es.length = ((input.drop 1).filter (fun r => !(r.isEmpty))).length
      ∧ rowsOrdered es = true
      ∧ (∀ e ∈ es, 2 ≤ e.row ∧
          e.row < 2 + ((input.drop 1).filter (fun r => !(r.isEmpty))).length)
      ∧ (((input.drop 1).filter (fun r => !(r.isEmpty))) = [] → k = 0 ∧ es = []) := by
  obtain ⟨s2, k, es, hrun, hlen, hord, hrng⟩ :=
    runRows_sqlite_spec clock ((input.head?).getD [])
      ((input.drop 1).filter (fun r => !(r.isEmpty))) 2 s
  refine ⟨s2, k, es, ?_, hlen, hord, hrng, ?_⟩
  · rw [importCsv_headerOk sqliteStore clock input s h]
    exact hrun
  · intro hnil
    rw [hnil] at hlen
    simp only [List.length_nil] at hlen
    exact ⟨by omega, List.length_eq_zero.mp (by omega)⟩

/-- Witness for C7 at the spec's own scenario: Alice inserted, Bob's
email and Cara's age rejected in order as rows 3 and 4. -/
theorem claim7_summary_accounting_witness :
    ∃ s2 k es, importCsv sqliteStore clk0
        [lcHdr, [str "Alice", str "alice@example.com", str "30"],
                [str "Bob", str "bob@example", str "25"],
                [str "Cara", str "cara@example.com", str "200"]] emptyDb =
        .ok (s2, k, es)
      ∧ k + es.length = 3
      ∧ rowsOrdered es = true
      ∧ (∀ e ∈ es, 2 ≤ e.row ∧ e.row < 5)
      ∧ (([] : List (List Str)) ≠ [] → k = 0 ∧ es = []) := by
  obtain ⟨s2, k, es, h1, h2, h3, h4, _⟩ :=
    claim7_summary_accounting clk0
      [lcHdr, [str "Alice", str "alice@example.com", str "30"],
              [str "Bob", str "bob@example", str "25"],
              [str "Cara", str "cara@example.com", str "200"]] emptyDb (by decide)
  exact ⟨s2, k, es, h1, h2, h3, h4, fun hc => absurd rfl hc⟩

/-- Every timestamp the pipeline writes has the second-precision ISO-8601
shape `YYYY-MM-DDTHH:MM:SSZ` with a trailing `Z`. -/
theorem isoZ_shape (t : Utc) : isoSecondShape (isoZ t) = true := by
  unfold isoZ pad4 pad2
  simp only [List.cons_append, List.nil_append]
  unfold isoSecondShape
  simp [digitChar_isDigit]

/-- C8: round-trip through the store.  The full listing (`listAll`,
`SELECT ... ORDER BY id`) of the database after a run extends the previous
listing by exactly the newly inserted records; a record inserted for a
validated row appears in the final listing with its normalized fields
byte-identical to what the validator produced — trimmed name, trimmed
lower-cased email, parsed age — and `created_at` exactly
`isoformat(timespec="seconds") + "Z"` of the insert-time clock; ids stay
strictly increasing (so the listing is oldest-first, starting from the
well-formed empty database); and every such timestamp has the ISO-8601
UTC second-precision shape with a trailing `Z`. -/
theorem claim8_roundtrip :
    (∀ (clock : Nat → Utc) (fns : List Str) (rows : List (List Str)) (i : Nat)
        (s s2 : Db) (k : Nat) (es : List RowErr),
        runRows sqliteStore clock fns i s rows = .ok (s2, k, es) →
        (∃ t, listAll s2 = listAll s ++ t)
        ∧ (dbWf s = true → dbWf s2 = true)
        ∧ (∀ r ∈ listAll s2, r ∈ listAll s ∨
            ∃ j, r.created_at = isoZ (clock j) ∧ isoSecondShape r.created_at = true))
    ∧ (∀ (clock : Nat → Utc) (fns : List Str) (i : Nat) (s : Db)
        (vals : List Str) (rest : List (List Str)) (n e : Str) (a : Int),
        validate fns vals = .ok (n, e, a) →
        s.rows.any (fun q => decide (q.email = e)) = false →
        ∀ (s2 : Db) (k : Nat) (es : List RowErr),
          runRows sqliteStore clock fns i s (vals :: rest) = .ok (s2, k, es) →
          (⟨s.nextId, n, e, a, isoZ (clock i)⟩ : DbRec) ∈ listAll s2)
    ∧ (∀ t : Utc, isoSecondShape (isoZ t) = true)
    ∧ dbWf emptyDb = true := by
  refine ⟨?_, ?_, isoZ_shape, rfl⟩
  · intro clock fns rows i s s2 k es h
    obtain ⟨t, ht, htc⟩ := runRows_sqlite_rows clock fns rows i s s2 k es h
    refine ⟨⟨t, by simpa [listAll] using ht⟩,
      fun hwf => runRows_sqlite_wf clock fns rows i s s2 k es h hwf, ?_⟩
    intro r hr
    unfold listAll at hr
    rw [ht] at hr
    rcases List.mem_append.mp hr with h' | h'
    · exact Or.inl h'
    · obtain ⟨j, hj⟩ := htc r h'
      exact Or.inr ⟨j, hj, by rw [hj]; exact isoZ_shape (clock j)⟩
  · intro clock fns i s vals rest n e a hv habs s2 k es hmain
    have hins : sqliteStore.insert s ⟨n, e, a, isoZ (clock i)⟩ =
        .ok ⟨s.nextId + 1, s.rows ++ [⟨s.nextId, n, e, a, isoZ (clock i)⟩]⟩ := by
      show sqliteInsert s ⟨n, e, a, isoZ (clock i)⟩ = _
      unfold sqliteInsert
      rw [if_neg (by simp [habs])]
    rw [runRows_cons_inserted sqliteStore clock fns i s _ vals rest n e a hv hins] at hmain
    cases hrec : runRows sqliteStore clock fns (i + 1)
        ⟨s.nextId + 1, s.rows ++ [⟨s.nextId, n, e, a, isoZ (clock i)⟩]⟩ rest with
    | ok v =>
        obtain ⟨sr, kr, esr⟩ := v
        simp only [hrec, Except.ok.injEq, Prod.mk.injEq] at hmain
        obtain ⟨h1, _, _⟩ := hmain
        obtain ⟨t, ht, _⟩ := runRows_sqlite_rows clock fns rest (i + 1) _ sr kr esr hrec
        subst h1
        unfold listAll
        rw [ht]
        simp
    | error e2 => simp only [hrec] at hmain; exact absurd hmain (by simp)

/-- Witness for C8: importing Alice into the empty database leaves the
record with her normalized fields and a shaped timestamp in the listing. -/
theorem claim8_roundtrip_witness :
    (⟨1, str "Alice", str "alice@example.com", 30,
       str "2024-01-01T00:00:00Z"⟩ : DbRec) ∈
      listAll ⟨2, [⟨1, str "Alice", str "alice@example.com", 30,
                    str "2024-01-01T00:00:00Z"⟩]⟩ :=
  claim8_roundtrip.2.1 clk0 lcHdr 2 emptyDb
    [str "Alice", str "alice@example.com", str "30"] []
    (str "Alice") (str "alice@example.com") 30 rfl rfl
    ⟨2, [⟨1, str "Alice", str "alice@example.com", 30,
          str "2024-01-01T00:00:00Z"⟩]⟩ 1 [] rfl

/-- A successful validation returns exactly the normalized fields: the
trimmed name, the trimmed lower-cased email, and the parsed age. -/
theorem validate_ok_fields (fns vals : List Str) (n e : Str) (a : Int)
    (h : validate fns vals = .ok (n, e, a)) :
    n = rowName fns vals ∧ e = rowEmail fns vals ∧
      pyInt (rowAgeS fns vals) = some a := by
  unfold validate at h
  by_cases h1 : (rowName fns vals).length < 2
  · rw [if_pos h1] at h
    exact absurd h (by simp)
  · rw [if_neg h1] at h
    by_cases h2 : emailMatch (rowEmail fns vals)
    · rw [if_neg (by simp [h2])] at h
      cases hp : pyInt (rowAgeS fns vals) with
      | none => simp only [hp] at h; exact absurd h (by simp)
      | some b =>
          simp only [hp] at h
          by_cases hb : (b < 1 || 120 < b) = true
          · rw [if_pos hb] at h
            exact absurd h (by simp)
          · rw [if_neg hb] at h
            simp only [Except.ok.injEq, Prod.mk.injEq] at h
            exact ⟨h.1.symm, h.2.1.symm, congrArg some h.2.2⟩
    · rw [if_pos (by simp [h2])] at h
      exact absurd h (by simp)

/-- C9: duplicate detection compares normalized emails, not raw input.
A validated row's email is always the trimmed lower-cased raw field; if
that normalized value is already stored — whether written by an earlier
invocation or by an earlier row of the same run — the insert conflicts
and the row's outcome is `DuplicateEmail`; the stored emails therefore
stay pairwise distinct across any run, so at most one row per normalized
email is ever inserted.  Concretely, `"Alice@Example.com"` followed by
`" alice@example.com"` inserts only the first, as one normalized record. -/
theorem claim9_normalized_duplicates :
    (∀ (fns vals : List Str) (n e : Str) (a : Int),
        validate fns vals = .ok (n, e, a) →
        e = pyLower (pyStrip (getField fns vals (str "email"))))
    ∧ (∀ (clock : Nat → Utc) (fns : List Str) (i : Nat) (s : Db)
        (vals : List Str) (rest : List (List Str)) (n e : Str) (a : Int),
        validate fns vals = .ok (n, e, a) →
        s.rows.any (fun q => decide (q.email = e)) = true →
        runRows sqliteStore clock fns i s (vals :: rest) =
          match runRows sqliteStore clock fns (i + 1) s rest with
          | .ok (s2, k, es) => .ok (s2, k, ⟨i, .DuplicateEmail⟩ :: es)
          | .error err => .error err)
    ∧ (∀ (clock : Nat → Utc) (fns : List Str) (rows : List (List Str)) (i : Nat)
        (s s2 : Db) (k : Nat) (es : List RowErr),
        runRows sqliteStore clock fns i s rows = .ok (s2, k, es) →
        distinctEmails s.rows = true → distinctEmails s2.rows = true)
    ∧ importCsv sqliteStore clk0
        [lcHdr, [str "Al", str "Alice@Example.com", str "30"],
                [str "Bo", str " alice@example.com", str "31"]] emptyDb =
      .ok (⟨2, [⟨1, str "Al", str "alice@example.com", 30,
                 str "2024-01-01T00:00:00Z"⟩]⟩, 1, [⟨3, .DuplicateEmail⟩]) := by
  refine ⟨?_, ?_, ?_, rfl⟩
  · intro fns vals n e a h
    exact (validate_ok_fields fns vals n e a h).2.1
  · intro clock fns i s vals rest n e a hv hpresent
    have hins : sqliteStore.insert s ⟨n, e, a, isoZ (clock i)⟩ = .conflict := by
      show sqliteInsert s ⟨n, e, a, isoZ (clock i)⟩ = .conflict
      unfold sqliteInsert
      rw [if_pos (by simpa using hpresent)]
    have hstep := runRows_cons_conflict sqliteStore clock fns i s vals rest n e a hv hins
    refine hstep.trans ?_
    cases hx : runRows sqliteStore clock fns (i + 1) s rest with
    | ok v => obtain ⟨s2, k2, es2⟩ := v; rfl
    | error e2 => rfl
  · intro clock fns rows i s s2 k es h hd
    exact runRows_sqlite_distinct clock fns rows i s s2 k es h hd

/-- Witness for C9: against a store holding `bo@example.org`, a row whose
raw email is `" Bo@Example.org "` — equal only after normalization —
is reported `DuplicateEmail`. -/
theorem claim9_normalized_duplicates_witness :
    runRows sqliteStore clk0 lcHdr 5
      ⟨3, [⟨2, str "Bo", str "bo@example.org", 44, str "2024-01-01T00:00:00Z"⟩]⟩
      [[str "Bob", str " Bo@Example.org ", str "44"]] =
      .ok (⟨3, [⟨2, str "Bo", str "bo@example.org", 44, str "2024-01-01T00:00:00Z"⟩]⟩,
           0, [⟨5, .DuplicateEmail⟩]) := by
  rw [claim9_normalized_duplicates.2.1 clk0 lcHdr 5
    ⟨3, [⟨2, str "Bo", str "bo@example.org", 44, str "2024-01-01T00:00:00Z"⟩]⟩
    [str "Bob", str " Bo@Example.org ", str "44"] []
    (str "Bob") (str "bo@example.org") 44 rfl rfl]
  rfl

/-- A key that is not literally one of the raw fieldnames is absent from
the row dictionary: `row.get(key)` is `None`. -/
theorem rowGet_not_mem (fns vals : List Str) (key : Str) (h : key ∉ fns) :
    rowGet fns vals key = none := by
  unfold rowGet
  have hnil : (fns.enum.filter (fun p => decide (p.2 = key))) = [] := by
    apply List.filter_eq_nil_iff.mpr
    intro p hp
    have hmem : p.2 ∈ fns := by
      have := List.mem_enum_iff_getElem?.mp hp
      exact List.getElem?_mem this
    simp only [decide_eq_true_eq]
    intro hc
    exact h (hc ▸ hmem)
  rw [hnil]
  rfl

/-- C5 counterexample: the header check accepts `Name,Email,Age`
case-insensitively, yet the valid data row is NOT imported — the field
lookups use the raw capitalized fieldnames, so every field reads as empty
and the row is reported `NameTooShort` with nothing inserted, unlike the
identical file with the all-lower-case header, which inserts the row. -/
theorem claim5_counterexample :
    headerOk [str "Name", str "Email", str "Age"] = true
    ∧ importCsv sqliteStore clk0
        [[str "Name", str "Email", str "Age"],
         [str "Alice", str "alice@example.com", str "30"]] emptyDb =
      .ok (emptyDb, 0, [⟨2, .NameTooShort⟩])
    ∧ importCsv sqliteStore clk0
        [lcHdr, [str "Alice", str "alice@example.com", str "30"]] emptyDb =
      .ok (⟨2, [⟨1, str "Alice", str "alice@example.com", 30,
                 str "2024-01-01T00:00:00Z"⟩]⟩, 1, []) :=
  ⟨rfl, rfl, rfl⟩

/-- C5 amended: the header PRESENCE check is case-insensitive and
order-independent — it strip-lowers each header cell and only asks that
the three required names occur (extra columns ignored) — and for headers
whose cells are literally the lower-case names the rows are mapped to
fields order-independently; but row values are looked up under the raw
header cells, so when the literal lower-case `name` is not among the raw
fieldnames (e.g. with the header `Name,Email,Age`) every field lookup
misses, the name reads as empty, and every data row is reported
`NameTooShort` instead of being imported. -/
theorem claim5_amended :
    (∀ fns : List Str, headerOk fns = true ↔
        ∀ r ∈ requiredCols, ∃ c ∈ fns, stripLower c = r)
    ∧ (∀ fns vals : List Str, (str "name") ∉ fns →
        validate fns vals = .error .NameTooShort)
    ∧ (∀ n e a : Str,
        validate [str "email", str "name", str "age"] [e, n, a] =
          validate lcHdr [n, e, a]) := by
  refine ⟨?_, ?_, ?_⟩
  · intro fns
    simp only [headerOk, List.all_eq_true, List.elem_iff, List.mem_map]
  · intro fns vals hnm
    have h0 : rowName fns vals = [] := by
      unfold rowName getField
      rw [rowGet_not_mem fns vals (str "name") hnm]
      rfl
    unfold validate
    rw [if_pos (by rw [h0]; decide)]
  · intro n e a
    rfl

/-- Witness for C5 amended: under the capitalized header the valid Alice
row is reported `NameTooShort`. -/
theorem claim5_amended_witness :
    validate [str "Name", str "Email", str "Age"]
      [str "Alice", str "alice@example.com", str "30"] = .error .NameTooShort :=
  claim5_amended.2.1 [str "Name", str "Email", str "Age"]
    [str "Alice", str "alice@example.com", str "30"] (by decide)

/-- C6 counterexample: the upload path decodes with plain `utf-8` (not
`utf-8-sig`), so a leading U+FEFF stays glued to the first header cell;
`strip()` does not remove it (it is not whitespace), the required-name
check misses `name`, and the whole ingestion is rejected with the header
error — whereas the identical stream without the byte-order mark imports
its row.  The two Import Summaries are not the same: one does not
exist. -/
theorem claim6_counterexample :
    importCsv sqliteStore clk0
      [('﻿' :: str "name") :: [str "email", str "age"],
       [str "Alice", str "alice@example.com", str "30"]] emptyDb =
      .error .header
    ∧ importCsv sqliteStore clk0
        [lcHdr, [str "Alice", str "alice@example.com", str "30"]] emptyDb =
      .ok (⟨2, [⟨1, str "Alice", str "alice@example.com", 30,
                 str "2024-01-01T00:00:00Z"⟩]⟩, 1, []) ∧
    ('﻿' :: str "name") ≠ str "name" :=
  ⟨rfl, rfl, by decide⟩

/-- C6 amended: a character stream whose first character is U+FEFF
followed by a valid `name,email,age` header is NOT ingested like the
stream without the byte-order mark: the mark corrupts the first header
name, the header check fails, and the call raises the header error — for
every store, every store state, every clock and every data-row suffix, so
nothing is imported at all. -/
theorem claim6_amended : ∀ (σ : Type) (st : Store σ) (clock : Nat → Utc)
    (rows : List (List Str)) (s : σ),
    importCsv st clock
      ((('﻿' :: str "name") :: [str "email", str "age"]) :: rows) s =
      .error .header := by
  intro σ st clock rows s
  rfl
